import Mathlib

/-!
Verification of the AutoBlockIPList ingestion-and-normalization pipeline
(`AutoBlockIPList.py`).

The Python source is shallowly embedded: pure helpers become Lean functions
on `String` / `List Char`, machine integers become `Nat` / `Int`, fallible
code returns `Option` / `Except`, and the SQLite deny-list store becomes an
explicit list of rows transformed by pure functions.  The CPython
`ipaddress` routines the script calls (`ip_address`, `IPv4Address`,
`IPv6Address`, `.exploded`, `.version`) are embedded from their stdlib
source, since the script's behaviour is defined in terms of them.
-/

namespace ABIP

/-! ### Characters and digit strings -/

/-- Membership in the decimal digit set `0123456789` used by
`ipaddress._parse_octet` (code points 48-57). -/
def isDig (c : Char) : Bool := 48 ≤ c.toNat && c.toNat ≤ 57

/-- Membership in `ipaddress._HEX_DIGITS` = `0123456789ABCDEFabcdef`. -/
def isHexDig (c : Char) : Bool :=
  isDig c || (97 ≤ c.toNat && c.toNat ≤ 102) || (65 ≤ c.toNat && c.toNat ≤ 70)

/-- Value of a decimal digit character. -/
def decDigVal (c : Char) : Nat := c.toNat - 48

/-- Value of a hexadecimal digit character (either case). -/
def hexDigVal (c : Char) : Nat :=
  if isDig c then c.toNat - 48
  else if 97 ≤ c.toNat then c.toNat - 97 + 10
  else c.toNat - 65 + 10

/-- `int(s, 10)` on an all-digit string. -/
def decVal (s : List Char) : Nat := s.foldl (fun a c => a * 10 + decDigVal c) 0

/-- `int(s, 16)` on an all-hex-digit string. -/
def hexVal16 (s : List Char) : Nat := s.foldl (fun a c => a * 16 + hexDigVal c) 0

/-- Python `int(s)`: evaluates a non-empty decimal digit string, `none` models
the `ValueError` raised on anything else.  (Full `int()` also tolerates
signs and surrounding whitespace; such strings never reach the call sites
embedded here, which only convert substrings of already-validated
addresses.) -/
def pyIntDec (s : List Char) : Option Nat :=
  if s ≠ [] ∧ s.all isDig then some (decVal s) else none

/-- Lowercase hexadecimal digit character, as produced by Python `'%x'`. -/
def hexDig (n : Nat) : Char :=
  if n < 10 then Char.ofNat ('0'.toNat + n) else Char.ofNat ('a'.toNat + (n - 10))

/-- Uppercase hexadecimal digit character (used only to state spec-side
canonical forms). -/
def upHexDig (n : Nat) : Char :=
  if n < 10 then Char.ofNat ('0'.toNat + n) else Char.ofNat ('A'.toNat + (n - 10))

/-- Digits of `v` in base 16, least significant first; fuel-based so that it
reduces by evaluation (any `fuel ≥ v` gives the same answer). -/
def hexRevF : Nat → Nat → List Char
  | 0, _ => []
  | fuel + 1, v => if v = 0 then [] else hexDig (v % 16) :: hexRevF fuel (v / 16)

/-- Python `'%x' % v`: minimal lowercase hexadecimal rendering. -/
def hexStr (v : Nat) : List Char := if v = 0 then ['0'] else (hexRevF v v).reverse

/-- Decimal digits of `v`, least significant first, fuel-based. -/
def decRevF : Nat → Nat → List Char
  | 0, _ => []
  | fuel + 1, v =>
    if v = 0 then [] else Char.ofNat ('0'.toNat + v % 10) :: decRevF fuel (v / 10)

/-- Python `'%d' % v` / `str(v)`: minimal decimal rendering. -/
def decStr (v : Nat) : List Char := if v = 0 then ['0'] else (decRevF v v).reverse

/-- Zero left-padding to width `w`, as in Python `'%02x'` / `'%032x'`. -/
def padZero (w : Nat) (l : List Char) : List Char := List.replicate (w - l.length) '0' ++ l

/-- The low `w` base-`B` digits of `v`, most significant first. -/
def digitsFix (B : Nat) : Nat → Nat → List Nat
  | 0, _ => []
  | w + 1, v => digitsFix B w (v / B) ++ [v % B]

/-- Value of a most-significant-first base-`B` digit list. -/
def valNat (B : Nat) (ds : List Nat) : Nat := ds.foldl (fun a d => a * B + d) 0

/-! ### Python string primitives -/

/-- Python `str.split(sep)` for a one-character separator: splits at every
occurrence and keeps empty pieces (`''.split(c) == ['']`). -/
def pySplit (c : Char) : List Char → List (List Char)
  | [] => [[]]
  | a :: rest =>
    match pySplit c rest with
    | [] => [[]]
    | g :: gs => if a = c then [] :: g :: gs else (a :: g) :: gs

/-- Python `sep.join(parts)` for a one-character separator. -/
def pyJoin (c : Char) : List (List Char) → List Char
  | [] => []
  | [g] => g
  | g :: h :: gs => g ++ c :: pyJoin c (h :: gs)

/-- `text.replace("\r", "")`, as applied by `get_ip_local` / `get_ip_remote`. -/
def stripCR (l : List Char) : List Char := l.filter (fun c => c ≠ '\r')

/-! ### `ipaddress` embedding: IPv4 -/

/-- `ipaddress._parse_octet`: a dotted-quad component must be a non-empty
all-decimal string of at most 3 characters, value at most 255, with no
leading zero.  `none` models `ValueError`. -/
def parse_octet (s : List Char) : Option Nat :=
  if s = [] then none
  else if ¬ s.all isDig then none
  else if s.length > 3 then none
  else
    let n := decVal s
    if n > 255 then none
    else if s.headD '0' = '0' ∧ s.length ≠ 1 then none
    else some n

/-- The four octets of a dotted-quad string, if it is a valid IPv4 address:
`IPv4Address._ip_int_from_string` before `int.from_bytes` recombination. -/
def parse_ipv4_octets (s : List Char) : Option (Nat × Nat × Nat × Nat) :=
  match pySplit '.' s with
  | [p1, p2, p3, p4] =>
    match parse_octet p1, parse_octet p2, parse_octet p3, parse_octet p4 with
    | some a, some b, some c, some d => some (a, b, c, d)
    | _, _, _, _ => none
  | _ => none

/-- `IPv4Address._ip_int_from_string`: the 32-bit integer of a dotted quad
(big-endian recombination of the four octets). -/
def ipv4_int_from_string (s : List Char) : Option Nat :=
  (parse_ipv4_octets s).map (fun q => ((q.1 * 256 + q.2.1) * 256 + q.2.2.1) * 256 + q.2.2.2)

/-- `IPv4Address.__str__` / `.exploded`: dotted-quad rendering of a 32-bit
integer. -/
def ipv4_str (v : Nat) : List Char :=
  pyJoin '.' [decStr (v / 16777216), decStr (v / 65536 % 256), decStr (v / 256 % 256),
    decStr (v % 256)]

/-! ### `ipaddress` embedding: IPv6 -/

/-- `IPv6Address._parse_hextet`: only hex digits, at most four characters;
`int('', 16)` raises, so the empty string is also rejected. -/
def parse_hextet (s : List Char) : Option Nat :=
  if ¬ s.all isHexDig then none
  else if s.length > 4 then none
  else if s = [] then none
  else some (hexVal16 s)

/-- The scan `for i in range(1, len(parts)-1)` of `_ip_int_from_string`
looking for the position of `::`: `none` models the error raised when two
interior parts are empty; otherwise the unique interior empty part's
index, if any. -/
def findSkip (parts : List (List Char)) : Option (Option Nat) :=
  match (List.range (parts.length - 1)).filter
      (fun i => 1 ≤ i ∧ parts.getD i [] = []) with
  | [] => some none
  | [i] => some (some i)
  | _ => none

/-- The `parts_hi` / `parts_lo` / `parts_skipped` bookkeeping of
`_ip_int_from_string`: leading-hextet count, trailing-hextet count, and
the number of groups the `::` stands for, with the errors raised when `:`
starts or ends the address without a full `::`, or when `::` would stand
for nothing. -/
def v6Counts (parts : List (List Char)) : Option Nat → Option (Nat × Nat × Nat)
  | some skip =>
    let hi := if parts.headD [] = [] then skip - 1 else skip
    if parts.headD [] = [] ∧ hi ≠ 0 then none
    else
      let lo0 := parts.length - skip - 1
      let lo := if parts.getLastD [] = [] then lo0 - 1 else lo0
      if parts.getLastD [] = [] ∧ lo ≠ 0 then none
      else if 8 - (hi + lo) < 1 then none
      else some (hi, lo, 8 - (hi + lo))
  | none =>
    if parts.length ≠ 8 then none
    else if parts.headD [] = [] then none
    else if parts.getLastD [] = [] then none
    else some (parts.length, 0, 0)

/-- Tail of `IPv6Address._ip_int_from_string` after the embedded-IPv4
rewrite: locate `::`, derive the counts, then fold the hextets with
shift-and-or (`ip_int <<= 16; ip_int |= hextet` for `parts[:parts_hi]`,
then `ip_int <<= 16 * parts_skipped`, then the same fold for the last
`parts_lo` parts); each fallible step is sequenced with `bind`. -/
def v6FromParts (parts : List (List Char)) : Option Nat :=
  if parts.length > 9 then none
  else
    (findSkip parts).bind (fun skipIdx =>
      (v6Counts parts skipIdx).bind (fun c =>
        ((parts.take c.1).mapM parse_hextet).bind (fun his =>
          ((parts.drop (parts.length - c.2.1)).mapM parse_hextet).bind (fun los =>
            let z1 := his.foldl (fun a h => (a <<< 16) ||| h) 0
            some (los.foldl (fun a h => (a <<< 16) ||| h) (z1 <<< (16 * c.2.2)))))))

/-- `IPv6Address._ip_int_from_string`: split on `:`, require at least three
parts, rewrite a trailing embedded dotted quad into two hextets, then
`v6FromParts`. -/
def ipv6_int_from_string (s : List Char) : Option Nat :=
  let parts0 := pySplit ':' s
  if parts0.length < 3 then none
  else if '.' ∈ parts0.getLastD [] then
    (ipv4_int_from_string (parts0.getLastD [])).bind (fun q =>
      v6FromParts (parts0.dropLast ++
        [hexStr ((q >>> 16) &&& 65535), hexStr (q &&& 65535)]))
  else v6FromParts parts0

/-- Result of `ipaddress.ip_address`: an address object carrying `.version`
and its integer value. -/
structure PyIPAddress where
  version : Nat
  value : Nat
deriving DecidableEq, Repr

/-- `ipaddress.ip_address(s)`: try `IPv4Address`, then `IPv6Address`;
`none` models the `ValueError` raised when both fail. -/
def ip_address (s : String) : Option PyIPAddress :=
  match ipv4_int_from_string s.data with
  | some v => some ⟨4, v⟩
  | none =>
    match ipv6_int_from_string s.data with
    | some v => some ⟨6, v⟩
    | none => none

/-- `IPv6Address._explode_shorthand_ip_string`: `'%032x' % v` chunked into
eight 4-character groups joined by `:`. -/
def explode6 (v : Nat) : List Char :=
  pyJoin ':' ((List.range 8).map (fun x => ((padZero 32 (hexStr v)).drop (4 * x)).take 4))

/-- `.exploded` of an `ip_address` result: dotted quad for IPv4, the
fully-expanded 8-group form for IPv6. -/
def exploded (a : PyIPAddress) : List Char :=
  if a.version = 4 then ipv4_str a.value else explode6 a.value

/-! ### The script's own address helpers -/

/-- `ipv4_to_ipstd` (`AutoBlockIPList.py:46`): split on `.`, convert each
piece with `int`, format into the IPv4-mapped template and uppercase.
`none` models an uncaught-at-this-level `ValueError` from `int`. -/
def ipv4_to_ipstd (ipv4 : String) : Option String :=
  match (pySplit '.' ipv4.data).mapM pyIntDec with
  | some (n1 :: n2 :: n3 :: n4 :: _) =>
    some ⟨(("0000:0000:0000:0000:0000:ffff:".data ++
      padZero 2 (hexStr n1) ++ padZero 2 (hexStr n2)) ++
      ':' :: (padZero 2 (hexStr n3) ++ padZero 2 (hexStr n4))).map Char.toUpper⟩
  | _ => none

/-- `ipv6_to_ipstd` (`AutoBlockIPList.py:51`):
`ipaddress.ip_address(ipv6).exploded.upper()`. -/
def ipv6_to_ipstd (ipv6 : String) : Option String :=
  (ip_address ipv6).map (fun a => ⟨(exploded a).map Char.toUpper⟩)

/-! ### The Address Normalizer: `process_ip` (lines 55-71) -/

/-- The `[i, ipstd, expire]` triple appended to `processed`; the spec's
`NormalizedEntry`. -/
structure NormalizedEntry where
  address : String
  ipstd : String
  expire : Int
deriving DecidableEq, Repr

/-- The body of the `try` block of `process_ip` for one token, with the
address parser as a parameter (the source calls `ipaddress.ip_address`):
parse, then dispatch on `.version`, with `ipstd = ""` for any version other
than 4 and 6. `none` models a `ValueError` escaping to `except`. -/
def tryProcessOne (g : String → Option PyIPAddress) (i : String) (expire : Int) :
    Option NormalizedEntry :=
  (g i).bind (fun ip =>
    if ip.version = 4 then (ipv4_to_ipstd i).map (fun std => ⟨i, std, expire⟩)
    else if ip.version = 6 then (ipv6_to_ipstd i).map (fun std => ⟨i, std, expire⟩)
    else some ⟨i, "", expire⟩)

/-- `process_ip` parameterized by the address parser: returns
`(processed, invalid)`, both in input order. -/
def process_ip_with (g : String → Option PyIPAddress) :
    List String → Int → List NormalizedEntry × List String
  | [], _ => ([], [])
  | i :: rest, expire =>
    let r := process_ip_with g rest expire
    match tryProcessOne g i expire with
    | some entry => (entry :: r.1, r.2)
    | none => (r.1, if i ≠ "" then i :: r.2 else r.2)

/-- `process_ip` as in the source, using `ipaddress.ip_address`. -/
def process_ip (ip_list : List String) (expire : Int) :
    List NormalizedEntry × List String :=
  process_ip_with ip_address ip_list expire

/-! ### Expiration Calculator (lines 153-154) -/

/-- `if args.expire_in_day > 0: args.expire_in_day = int(start_time) +
args.expire_in_day * 60 * 60 * 24` — `start_time` is `time.time()` already
truncated by `int()`. -/
def compute_expire (expire_in_day : Int) (start_time : Int) : Int :=
  if expire_in_day > 0 then start_time + expire_in_day * (60 * 60 * 24) else expire_in_day

/-! ### Source Reader and Tokenizer (lines 25-43) -/

/-- `get_ip_local`: `file.read().replace("\r", "")`; the argument stands for
the file's text. -/
def get_ip_local (file : String) : String := ⟨stripCR file.data⟩

/-- `get_ip_remote`: the fetched body with carriage returns stripped; the
argument stands for the response text, with `""` standing for a failed
fetch (the function returns `""` and logs on any request error). -/
def get_ip_remote (text : String) : String := ⟨stripCR text.data⟩

/-- Python `str.split` at `String` level. -/
def pySplitStr (c : Char) (s : String) : List String :=
  (pySplit c s.data).map (fun l => ⟨l⟩)

/-- `get_ip_list`: per-source line lists, local sources first then remote,
flattened by `reduce(lambda a, b: a + b, data)`; `none` models the
`TypeError` `reduce` raises on an empty sequence (no sources at all). -/
def get_ip_list (locs exts : List String) : Option (List String) :=
  let data := locs.map (fun f => pySplitStr '\n' (get_ip_local f)) ++
    exts.map (fun s => pySplitStr '\n' (get_ip_remote s))
  match data with
  | [] => none
  | x :: xs => some (xs.foldl (fun a b => a ++ b) x)

/-! ### Store Reconciler (lines 161-188) -/

/-- A row of the `AutoBlockIP` table (`rtype` embeds the column `Type`). -/
structure Row where
  IP : String
  IPStd : String
  ExpireTime : Int
  Deny : Bool
  RecordTime : Int
  rtype : Int
  Meta : Option Int
deriving DecidableEq, Repr

/-- Observable steps of the store phase, in execution order: each statement
executed against the store plus the two data-dependent reports. -/
inductive Event where
  | purgeExpired
  | clearAll
  | countBefore (n : Nat)
  | upsert
  | dryRunNothing
  | countAfter (n : Nat)
  | noIPFound
deriving DecidableEq, Repr

/-- `DELETE FROM AutoBlockIP WHERE Deny = 1 AND ExpireTime > 0 AND
ExpireTime < strftime('%s','now')`. -/
def purgeExpiredRows (now : Int) (store : List Row) : List Row :=
  store.filter (fun r => ¬ (r.Deny = true ∧ r.ExpireTime > 0 ∧ r.ExpireTime < now))

/-- `DELETE FROM AutoBlockIP WHERE Deny = 1`. -/
def clearDenyRows (store : List Row) : List Row :=
  store.filter (fun r => r.Deny ≠ true)

/-- `SELECT COUNT(IP) FROM AutoBlockIP WHERE Deny = 1` (`IP` is the non-null
primary key). -/
def countDeny (store : List Row) : Nat :=
  (store.filter (fun r => r.Deny = true)).length

/-- One `REPLACE INTO AutoBlockIP (IP, IPStd, ExpireTime, Deny, RecordTime,
Type, Meta) VALUES(?, ?, ?, 1, strftime('%s','now'), 0, NULL)`: SQLite
deletes any row with the conflicting primary key `IP`, then inserts. -/
def replaceRow (now : Int) (store : List Row) (e : NormalizedEntry) : List Row :=
  store.filter (fun r => r.IP ≠ e.address) ++ [⟨e.address, e.ipstd, e.expire, true, now, 0, none⟩]

/-- `c.executemany(REPLACE ..., ips_formatted)`. -/
def executemanyReplace (now : Int) (store : List Row) (entries : List NormalizedEntry) :
    List Row :=
  entries.foldl (replaceRow now) store

/-- The three flags of `args` that the store phase reads. -/
structure Args where
  remove_expired : Bool
  clear_db : Bool
  dry_run : Bool
deriving DecidableEq, Repr

/-- Lines 161-188: the whole store block runs only when `ips_formatted` is
non-empty; inside it, purge-expired and clear-db run when requested and not
a dry run, then count-before, then the upsert (skipped on dry run), then
count-after.  On an empty list only `"No IP found in list"` is reported. -/
def store_phase (args : Args) (ips_formatted : List NormalizedEntry) (now : Int)
    (store : List Row) : List Row × List Event :=
  if ips_formatted.length > 0 then
    let s1 := if args.remove_expired = true ∧ args.dry_run = false then
      purgeExpiredRows now store else store
    let e1 : List Event := if args.remove_expired = true ∧ args.dry_run = false then
      [Event.purgeExpired] else []
    let s2 := if args.clear_db = true ∧ args.dry_run = false then clearDenyRows s1 else s1
    let e2 : List Event := if args.clear_db = true ∧ args.dry_run = false then
      [Event.clearAll] else []
    let before := countDeny s2
    let s3 := if args.dry_run = false then executemanyReplace now s2 ips_formatted else s2
    let e3 : List Event := if args.dry_run = false then [Event.upsert] else
      [Event.dryRunNothing]
    let after := countDeny s3
    (s3, e1 ++ e2 ++ Event.countBefore before :: e3 ++ [Event.countAfter after])
  else (store, [Event.noIPFound])

/-! ### Argument validation and the top-level run (lines 100-188) -/

/-- The parsed argument record (`in_file` holds the text of each opened
local list file, `in_url` the fetched text of each URL source, `""` for a
failed fetch). -/
structure ArgsT where
  in_file : List String
  in_url : List String
  expire_in_day : Int
  remove_expired : Bool
  backup_to : Option String
  clear_db : Bool
  dry_run : Bool
  verbose : Bool
deriving DecidableEq, Repr

/-- The validation at the end of `parse_args` (lines 124-129):
source-presence check, then the clear-db/backup check, then
`dry_run` forcing `verbose`. -/
def parse_args_validate (a : ArgsT) : Except String ArgsT :=
  if a.in_file.length = 0 ∧ a.in_url.length = 0 then
    Except.error "At least one source list is mandatory (file or url)"
  else if a.clear_db = true ∧ a.backup_to = none then
    Except.error "backup folder should be set for clear db"
  else Except.ok (if a.dry_run then { a with verbose := true } else a)

/-- Process outcome of a run. -/
inductive MainResult where
  | configError (msg : String)
  | fatalError (msg : String)
  | ran (store : List Row) (events : List Event)
deriving DecidableEq, Repr

/-- The `__main__` block in source order: argument validation, the database
existence/readability checks, the expiration computation, source
collection, normalization, then the store phase.  A `configError` or
`fatalError` result carries no store state: nothing after the failing step
runs. -/
def main_model (a : ArgsT) (db_exists db_readable : Bool) (start_time now : Int)
    (store : List Row) : MainResult :=
  match parse_args_validate a with
  | Except.error m => MainResult.configError m
  | Except.ok args =>
    if db_exists = false then
      MainResult.fatalError "No such file or directory: /etc/synoautoblock.db"
    else if db_readable = false then
      MainResult.fatalError "Unable to read database. Run this script with sudo or root user."
    else
      let expire := compute_expire args.expire_in_day start_time
      match get_ip_list args.in_file args.in_url with
      | none => MainResult.fatalError "reduce of empty iterable with no initial value"
      | some ips =>
        let pr := process_ip ips expire
        let sp := store_phase ⟨args.remove_expired, args.clear_db, args.dry_run⟩ pr.1 now store
        MainResult.ran sp.1 sp.2

/-! ### Spec-side definitions (for refinement claims) and test fixtures -/

/-- Uppercase hexadecimal digit or decimal digit: the character set of the
spec's canonical forms. -/
def isUpHex (c : Char) : Bool := isDig c || ('A' ≤ c && c ≤ 'F')

/-- Written from the spec's words for C3: `0000:0000:0000:0000:0000:FFFF:
HHHH:HHHH`, 8 groups, uppercase, where the last two hextets are the
hexadecimal encodings of the octet pairs `(a,b)` and `(c,d)`. -/
def specCanonIPv4 (a b c d : Nat) : String :=
  ⟨"0000:0000:0000:0000:0000:FFFF:".data ++
    [upHexDig (a / 16), upHexDig (a % 16), upHexDig (b / 16), upHexDig (b % 16), ':',
      upHexDig (c / 16), upHexDig (c % 16), upHexDig (d / 16), upHexDig (d % 16)]⟩

/-- A hypothetical address parser that reports version 5 for the token
`"x"`: exercises the defensive `else` branch of `process_ip`, which is
unreachable with the stdlib `ip_address` (it only ever yields versions 4
and 6). -/
def testParse5 (s : String) : Option PyIPAddress :=
  if s = "x" then some ⟨5, 0⟩ else none

/-! ## General lemmas about the embedding -/

theorem tryProcessOne_inv {g : String → Option PyIPAddress} {i : String} {e : Int}
    {x : NormalizedEntry} (h : tryProcessOne g i e = some x) :
    x.address = i ∧ x.expire = e ∧ ∃ a, g i = some a := by
  unfold tryProcessOne at h
  rcases hg : g i with _ | a <;> rw [hg] at h
  · exact absurd h (by simp)
  · refine ⟨?_, ?_, a, rfl⟩ <;>
    · simp only [Option.some_bind] at h
      split at h
      · rw [Option.map_eq_some'] at h
        obtain ⟨s, _, hx⟩ := h
        rw [← hx]
      · split at h
        · rw [Option.map_eq_some'] at h
          obtain ⟨s, _, hx⟩ := h
          rw [← hx]
        · rw [Option.some_inj] at h
          rw [← h]

theorem tryProcessOne_address {g : String → Option PyIPAddress} {i : String} {e : Int}
    {x : NormalizedEntry} (h : tryProcessOne g i e = some x) : x.address = i :=
  (tryProcessOne_inv h).1

theorem process_ip_with_processed (g : String → Option PyIPAddress) (l : List String)
    (e : Int) :
    (process_ip_with g l e).1 = l.filterMap (fun i => tryProcessOne g i e) := by
  induction l with
  | nil => rfl
  | cons i rest ih =>
    simp only [process_ip_with, List.filterMap_cons]
    rcases h : tryProcessOne g i e with _ | x <;> simp [h, ih]

theorem process_ip_with_invalid (g : String → Option PyIPAddress) (l : List String)
    (e : Int) :
    (process_ip_with g l e).2 =
      l.filter (fun i => decide (tryProcessOne g i e = none ∧ i ≠ "")) := by
  induction l with
  | nil => rfl
  | cons i rest ih =>
    simp only [process_ip_with, List.filter_cons]
    rcases h : tryProcessOne g i e with _ | x
    · by_cases hi : i = "" <;> simp [h, hi, ih]
    · simp [h, ih]

theorem filterMap_map_sublist {α β : Type} {f : α → Option β} {g : β → α}
    (h : ∀ i x, f i = some x → g x = i) : ∀ l : List α, ((l.filterMap f).map g).Sublist l := by
  intro l
  induction l with
  | nil => simp
  | cons i rest ih =>
    rw [List.filterMap_cons]
    rcases hf : f i with _ | x
    · exact ih.cons i
    · rw [List.map_cons, h i x hf]
      exact ih.cons₂ i

theorem foldl_append_eq_flatten {α : Type} :
    ∀ (xs : List (List α)) (x : List α), xs.foldl (fun a b => a ++ b) x = x ++ xs.flatten := by
  intro xs
  induction xs with
  | nil => simp
  | cons y ys ih =>
    intro x
    rw [List.foldl_cons, ih (x ++ y)]
    simp

/-! ## Split and join lemmas -/

theorem pySplit_ne_nil (c : Char) : ∀ l, pySplit c l ≠ [] := by
  intro l
  cases l with
  | nil => simp [pySplit]
  | cons a rest =>
    simp only [pySplit]
    rcases hs : pySplit c rest with _ | ⟨g, gs⟩
    · simp
    · by_cases hac : a = c <;> simp [hac]

theorem pyJoin_pair (c : Char) (g h : List Char) (gs : List (List Char)) :
    pyJoin c (g :: h :: gs) = g ++ c :: pyJoin c (h :: gs) := rfl

theorem pyJoin_pySplit (c : Char) : ∀ l, pyJoin c (pySplit c l) = l := by
  intro l
  induction l with
  | nil => rfl
  | cons a rest ih =>
    rcases hs : pySplit c rest with _ | ⟨g, gs⟩
    · exact absurd hs (pySplit_ne_nil c rest)
    · rw [hs] at ih
      simp only [pySplit, hs]
      by_cases hac : a = c
      · rw [if_pos hac, pyJoin_pair, hac, List.nil_append, ih]
      · rw [if_neg hac]
        cases gs with
        | nil =>
          have hgr : g = rest := ih
          rw [show pyJoin c [a :: g] = a :: g from rfl, hgr]
        | cons h' gs' =>
          rw [pyJoin_pair, List.cons_append, ← pyJoin_pair, ih]

theorem pySplit_no_sep {c : Char} : ∀ {l : List Char}, c ∉ l → pySplit c l = [l] := by
  intro l
  induction l with
  | nil => intro _; rfl
  | cons a rest ih =>
    intro h
    have hac : a ≠ c := fun he => h (he ▸ List.mem_cons_self a rest)
    have hrest : c ∉ rest := fun hm => h (List.mem_cons_of_mem a hm)
    simp only [pySplit, ih hrest]
    rw [if_neg (fun he => hac he)]

theorem pySplit_append_no_sep {c : Char} : ∀ {g : List Char}, c ∉ g → ∀ t,
    pySplit c (g ++ c :: t) = g :: pySplit c t := by
  intro g
  induction g with
  | nil =>
    intro _ t
    simp only [List.nil_append, pySplit]
    rcases hs : pySplit c t with _ | ⟨h, hs'⟩
    · exact absurd hs (pySplit_ne_nil c t)
    · simp
  | cons a as ih =>
    intro h t
    have hac : a ≠ c := fun he => h (he ▸ List.mem_cons_self a as)
    have has : c ∉ as := fun hm => h (List.mem_cons_of_mem a hm)
    rw [List.cons_append]
    simp only [pySplit, ih has t]
    rw [if_neg (fun he => hac he)]

theorem pySplit_pyJoin (c : Char) : ∀ gs : List (List Char), gs ≠ [] →
    (∀ g ∈ gs, c ∉ g) → pySplit c (pyJoin c gs) = gs := by
  intro gs
  induction gs with
  | nil => intro h _; exact absurd rfl h
  | cons g gs' ih =>
    intro _ hmem
    cases gs' with
    | nil =>
      rw [show pyJoin c [g] = g from rfl]
      exact pySplit_no_sep (hmem g (List.mem_cons_self g []))
    | cons h' t =>
      rw [pyJoin_pair, pySplit_append_no_sep (hmem g (List.mem_cons_self g _)) _,
        ih (by simp) (fun x hx => hmem x (List.mem_cons_of_mem g hx))]

theorem mem_pyJoin {c : Char} : ∀ {gs : List (List Char)} {ch : Char},
    ch ∈ pyJoin c gs → ch = c ∨ ∃ g ∈ gs, ch ∈ g := by
  intro gs
  induction gs with
  | nil => intro ch h; exact absurd h (List.not_mem_nil ch)
  | cons g gs' ih =>
    intro ch h
    cases gs' with
    | nil =>
      exact Or.inr ⟨g, List.mem_cons_self g [], h⟩
    | cons h' t =>
      rw [pyJoin_pair] at h
      rcases List.mem_append.mp h with hg | hrest
      · exact Or.inr ⟨g, List.mem_cons_self g _, hg⟩
      · rcases List.mem_cons.mp hrest with he | hm
        · exact Or.inl he
        · rcases ih hm with he | ⟨g', hg', hc⟩
          · exact Or.inl he
          · exact Or.inr ⟨g', List.mem_cons_of_mem g hg', hc⟩

theorem map_pyJoin {f : Char → Char} {c : Char} (hf : f c = c) :
    ∀ gs : List (List Char), (pyJoin c gs).map f = pyJoin c (gs.map (List.map f)) := by
  intro gs
  induction gs with
  | nil => rfl
  | cons g gs' ih =>
    cases gs' with
    | nil => rfl
    | cons h' t =>
      rw [pyJoin_pair, List.map_append, List.map_cons, hf, ih]
      simp only [List.map_cons, pyJoin_pair]

/-! ## Positional digit lemmas -/

theorem digitsFix_length (B w v : Nat) : (digitsFix B w v).length = w := by
  induction w generalizing v with
  | zero => rfl
  | succ w ih => simp [digitsFix, ih]

theorem digitsFix_lt {B : Nat} (hB : 0 < B) :
    ∀ w v, ∀ d ∈ digitsFix B w v, d < B := by
  intro w
  induction w with
  | zero => intro v d hd; exact absurd hd (List.not_mem_nil d)
  | succ w ih =>
    intro v d hd
    rcases List.mem_append.mp hd with hm | hm
    · exact ih (v / B) d hm
    · rw [List.mem_singleton.mp hm]
      exact Nat.mod_lt v hB

theorem valNat_foldl_init (B : Nat) :
    ∀ ds : List Nat, ∀ acc, ds.foldl (fun a d => a * B + d) acc =
      acc * B ^ ds.length + valNat B ds := by
  intro ds
  induction ds with
  | nil => intro acc; simp [valNat]
  | cons d ds' ih =>
    intro acc
    have hv : valNat B (d :: ds') = d * B ^ ds'.length + valNat B ds' := by
      show List.foldl _ (0 * B + d) ds' = _
      rw [ih (0 * B + d)]
      ring_nf
    rw [List.foldl_cons, ih (acc * B + d), hv, List.length_cons]
    ring

theorem valNat_append_singleton (B : Nat) (ds : List Nat) (d : Nat) :
    valNat B (ds ++ [d]) = valNat B ds * B + d := by
  unfold valNat
  rw [List.foldl_append]
  rfl

theorem valNat_lt {B : Nat} :
    ∀ ds : List Nat, (∀ d ∈ ds, d < B) → valNat B ds < B ^ ds.length := by
  intro ds
  induction ds with
  | nil => intro _; simp [valNat]
  | cons d ds' ih =>
    intro h
    have hv : valNat B (d :: ds') = d * B ^ ds'.length + valNat B ds' := by
      show List.foldl _ (0 * B + d) ds' = _
      rw [valNat_foldl_init B ds' (0 * B + d)]
      ring_nf
    rw [hv, List.length_cons]
    have h1 : valNat B ds' < B ^ ds'.length := ih (fun x hx => h x (List.mem_cons_of_mem d hx))
    have h2 : d < B := h d (List.mem_cons_self d ds')
    calc d * B ^ ds'.length + valNat B ds' < (d + 1) * B ^ ds'.length := by nlinarith
    _ ≤ B * B ^ ds'.length := Nat.mul_le_mul_right _ (by omega)
    _ = B ^ (ds'.length + 1) := by ring

theorem valNat_digitsFix (B : Nat) :
    ∀ w v, valNat B (digitsFix B w v) = v % B ^ w := by
  intro w
  induction w with
  | zero => intro v; simp [digitsFix, valNat, Nat.mod_one]
  | succ w ih =>
    intro v
    show valNat B (digitsFix B w (v / B) ++ [v % B]) = _
    rw [valNat_append_singleton, ih (v / B)]
    have hm : v % (B * B ^ w) = v % B + B * (v / B % B ^ w) := Nat.mod_mul
    have hp : B ^ (w + 1) = B * B ^ w := by ring
    rw [hp, hm]
    ring

theorem digitsFix_range (B : Nat) :
    ∀ w v, digitsFix B w v = (List.range w).map (fun i => v / B ^ (w - 1 - i) % B) := by
  intro w
  induction w with
  | zero => intro v; rfl
  | succ w ih =>
    intro v
    show digitsFix B w (v / B) ++ [v % B] = _
    rw [List.range_succ, List.map_append, ih (v / B)]
    congr 1
    · apply List.map_congr_left
      intro i hi
      rw [List.mem_range] at hi
      rw [Nat.div_div_eq_div_mul, ← pow_succ',
        show w - 1 - i + 1 = w + 1 - 1 - i by omega]
    · simp

theorem digitsFix_add (B : Nat) :
    ∀ b a v, digitsFix B (a + b) v = digitsFix B a (v / B ^ b) ++ digitsFix B b v := by
  intro b
  induction b with
  | zero => intro a v; simp [digitsFix]
  | succ b ih =>
    intro a v
    show digitsFix B (a + b) (v / B) ++ [v % B] = _
    rw [ih a (v / B), Nat.div_div_eq_div_mul, ← pow_succ']
    show _ = digitsFix B a (v / B ^ (b + 1)) ++ (digitsFix B b (v / B) ++ [v % B])
    rw [List.append_assoc]

/-! ## Hexadecimal rendering lemmas -/

theorem hexRevF_zero (fuel : Nat) : hexRevF fuel 0 = [] := by
  cases fuel <;> simp [hexRevF]

theorem hexRevF_congr : ∀ f1 f2 v, v ≤ f1 → v ≤ f2 → hexRevF f1 v = hexRevF f2 v := by
  intro f1
  induction f1 with
  | zero =>
    intro f2 v h1 _
    interval_cases v
    rw [hexRevF_zero, hexRevF_zero]
  | succ f ih =>
    intro f2 v h1 h2
    rcases Nat.eq_zero_or_pos v with hv | hv
    · rw [hv, hexRevF_zero, hexRevF_zero]
    · rcases f2 with _ | g
      · omega
      · simp only [hexRevF, if_neg (by omega : ¬ v = 0)]
        rw [ih g (v / 16) (by omega) (by omega)]

theorem hexRevF_unfold {v : Nat} (hv : 0 < v) (fuel : Nat) (hf : v ≤ fuel) :
    hexRevF fuel v = hexDig (v % 16) :: hexRevF (v / 16) (v / 16) := by
  rcases fuel with _ | f
  · omega
  · simp only [hexRevF, if_neg (by omega : ¬ v = 0)]
    rw [hexRevF_congr f (v / 16) (v / 16) (by omega) (by omega)]

theorem hexStr_lt16 {v : Nat} (h : v < 16) : hexStr v = [hexDig v] := by
  rcases Nat.eq_zero_or_pos v with hv | hv
  · rw [hv]
    rfl
  · unfold hexStr
    rw [if_neg (by omega), hexRevF_unfold hv v (le_refl v),
      Nat.div_eq_of_lt h, hexRevF_zero, Nat.mod_eq_of_lt h]
    rfl

theorem hexStr_two {v : Nat} (h16 : 16 ≤ v) (h : v < 256) :
    hexStr v = [hexDig (v / 16), hexDig (v % 16)] := by
  unfold hexStr
  rw [if_neg (by omega), hexRevF_unfold (by omega) v (le_refl v),
    hexRevF_unfold (by omega : 0 < v / 16) (v / 16) (le_refl _),
    Nat.div_div_eq_div_mul]
  have hz : v / 256 = 0 := Nat.div_eq_of_lt h
  rw [hz, hexRevF_zero, Nat.mod_eq_of_lt (by omega : v / 16 < 16)]
  rfl

theorem hex2_eq {v : Nat} (h : v < 256) :
    padZero 2 (hexStr v) = [hexDig (v / 16), hexDig (v % 16)] := by
  rcases Nat.lt_or_ge v 16 with hv | hv
  · rw [hexStr_lt16 hv]
    have h1 : v / 16 = 0 := Nat.div_eq_of_lt hv
    have h2 : v % 16 = v := Nat.mod_eq_of_lt hv
    rw [h1, h2]
    rfl
  · rw [hexStr_two hv h]
    rfl

theorem toUpper_hexDig : ∀ d : Nat, d < 16 → Char.toUpper (hexDig d) = upHexDig d := by
  decide

theorem hexDig_facts : ∀ d : Nat, d < 16 →
    isHexDig (hexDig d) = true ∧ hexDigVal (hexDig d) = d ∧ hexDig d ≠ ':' ∧
    hexDig d ≠ '.' ∧ isHexDig (Char.toUpper (hexDig d)) = true ∧
    hexDigVal (Char.toUpper (hexDig d)) = d ∧ Char.toUpper (hexDig d) ≠ ':' ∧
    Char.toUpper (hexDig d) ≠ '.' ∧ isUpHex (Char.toUpper (hexDig d)) = true := by
  decide

theorem hexDigVal_lt_of_isHexDig {c : Char} (h : isHexDig c = true) : hexDigVal c < 16 := by
  unfold isHexDig isDig at h
  simp only [Bool.or_eq_true, Bool.and_eq_true, decide_eq_true_eq] at h
  unfold hexDigVal isDig
  by_cases h1 : (48 ≤ c.toNat && c.toNat ≤ 57) = true
  · rw [if_pos h1]
    simp only [Bool.and_eq_true, decide_eq_true_eq] at h1
    omega
  · rw [if_neg h1]
    simp only [Bool.and_eq_true, decide_eq_true_eq, not_and, not_le] at h1
    by_cases h2 : 97 ≤ c.toNat
    · rw [if_pos h2]
      omega
    · rw [if_neg h2]
      rcases h with (hd | hl) | hu <;> omega

theorem hexRevF_length_le : ∀ w v, v < 16 ^ w → ∀ fuel, v ≤ fuel →
    (hexRevF fuel v).length ≤ w := by
  intro w
  induction w with
  | zero =>
    intro v hv fuel _
    interval_cases v
    rw [hexRevF_zero]
    exact Nat.le_refl 0
  | succ w ih =>
    intro v hv fuel hf
    rcases Nat.eq_zero_or_pos v with h0 | h0
    · rw [h0, hexRevF_zero]
      simp
    · rw [hexRevF_unfold h0 fuel hf, List.length_cons]
      have hdiv : v / 16 < 16 ^ w := by
        rw [Nat.div_lt_iff_lt_mul (by norm_num)]
        calc v < 16 ^ (w + 1) := hv
        _ = 16 ^ w * 16 := pow_succ 16 w
      have := ih (v / 16) hdiv (v / 16) (Nat.le_refl _)
      omega

theorem hexStr_ne_nil (v : Nat) : hexStr v ≠ [] := by
  unfold hexStr
  split_ifs with h0
  · simp
  · intro hc
    rw [List.reverse_eq_nil_iff] at hc
    have := hexRevF_unfold (by omega : 0 < v) v (Nat.le_refl v)
    rw [this] at hc
    exact List.noConfusion hc

theorem hexStr_length_le {v w : Nat} (hw : 1 ≤ w) (hv : v < 16 ^ w) :
    (hexStr v).length ≤ w := by
  unfold hexStr
  split_ifs with h0
  · simpa using hw
  · rw [List.length_reverse]
    exact hexRevF_length_le w v hv v (Nat.le_refl v)

theorem hexStr_all_hex : ∀ v, (hexStr v).all isHexDig = true := by
  have haux : ∀ v, (hexRevF v v).all isHexDig = true := by
    intro v
    induction v using Nat.strong_induction_on with
    | _ v ih =>
      rcases Nat.eq_zero_or_pos v with h0 | h0
      · rw [h0, hexRevF_zero]
        rfl
      · rw [hexRevF_unfold h0 v (Nat.le_refl v), List.all_cons,
          (hexDig_facts (v % 16) (Nat.mod_lt v (by norm_num))).1,
          ih (v / 16) (Nat.div_lt_self h0 (by norm_num))]
        rfl
  intro v
  unfold hexStr
  split_ifs with h0
  · rfl
  · have h1 := haux v
    rw [List.all_eq_true] at h1 ⊢
    intro c hc
    exact h1 c (List.mem_reverse.mp hc)

theorem hexVal16_hexStr : ∀ v, hexVal16 (hexStr v) = v := by
  have haux : ∀ v, hexVal16 ((hexRevF v v).reverse) = v := by
    intro v
    induction v using Nat.strong_induction_on with
    | _ v ih =>
      rcases Nat.eq_zero_or_pos v with h0 | h0
      · rw [h0, hexRevF_zero]
        rfl
      · rw [hexRevF_unfold h0 v (Nat.le_refl v), List.reverse_cons]
        unfold hexVal16
        rw [List.foldl_append]
        have hr : List.foldl (fun a c => a * 16 + hexDigVal c) 0 (hexRevF (v / 16) (v / 16)).reverse
            = v / 16 := ih (v / 16) (Nat.div_lt_self h0 (by norm_num))
        rw [hr]
        simp only [List.foldl_cons, List.foldl_nil,
          (hexDig_facts (v % 16) (Nat.mod_lt v (by norm_num))).2.1]
        omega
  intro v
  unfold hexStr
  split_ifs with h0
  · rw [h0]
    rfl
  · exact haux v

theorem padZero_append_singleton {w : Nat} {X : List Char} (h : X.length ≤ w) (c : Char) :
    padZero (w + 1) (X ++ [c]) = padZero w X ++ [c] := by
  unfold padZero
  rw [List.length_append, List.length_singleton,
    show w + 1 - (X.length + 1) = w - X.length by omega, List.append_assoc]

theorem padZero_zero_str {w : Nat} (hw : 1 ≤ w) : padZero w ['0'] = List.replicate w '0' := by
  unfold padZero
  rw [show (List.replicate (w - List.length ['0']) '0' : List Char) =
    List.replicate (w - 1) '0' from rfl]
  rw [show (['0'] : List Char) = [('0' : Char)] from rfl, ← List.replicate_succ' (w - 1) '0',
    show w - 1 + 1 = w by omega]

theorem padZero_hexStr : ∀ w, 1 ≤ w → ∀ v, v < 16 ^ w →
    padZero w (hexStr v) = (digitsFix 16 w v).map hexDig := by
  intro w
  induction w with
  | zero => intro h; omega
  | succ w ih =>
    intro _ v hv
    rw [show digitsFix 16 (w + 1) v = digitsFix 16 w (v / 16) ++ [v % 16] from rfl,
      List.map_append]
    rcases Nat.eq_zero_or_pos w with hw0 | hw0
    · subst hw0
      have h16 : v < 16 := by simpa using hv
      rw [hexStr_lt16 h16]
      show padZero 1 [hexDig v] = (digitsFix 16 0 (v / 16)).map hexDig ++ [hexDig (v % 16)]
      rw [show digitsFix 16 0 (v / 16) = [] from rfl, Nat.mod_eq_of_lt h16]
      rfl
    · have hdiv : v / 16 < 16 ^ w := by
        rw [Nat.div_lt_iff_lt_mul (by norm_num)]
        calc v < 16 ^ (w + 1) := hv
        _ = 16 ^ w * 16 := pow_succ 16 w
      rw [← ih hw0 (v / 16) hdiv]
      rcases Nat.eq_zero_or_pos v with h0 | h0
      · subst h0
        rw [show (0 : Nat) / 16 = 0 from rfl, show (0 : Nat) % 16 = 0 from rfl,
          show hexStr 0 = ['0'] from rfl, padZero_zero_str (by omega),
          padZero_zero_str (by omega),
          show (List.map hexDig [(0 : Nat)] : List Char) = ['0'] by decide,
          List.replicate_succ' w '0']
      · rcases Nat.lt_or_ge v 16 with h16 | h16
        · have hd0 : v / 16 = 0 := Nat.div_eq_of_lt h16
          rw [hexStr_lt16 h16, hd0, show hexStr 0 = ['0'] from rfl,
            padZero_zero_str (by omega), Nat.mod_eq_of_lt h16]
          show List.replicate (w + 1 - 1) '0' ++ [hexDig v] = _
          rw [show w + 1 - 1 = w by omega]
          simp
        · have hsv : hexStr v = hexStr (v / 16) ++ [hexDig (v % 16)] := by
            unfold hexStr
            rw [if_neg (by omega : ¬ v = 0), if_neg (by omega : ¬ v / 16 = 0),
              hexRevF_unfold h0 v (Nat.le_refl v), List.reverse_cons]
          rw [hsv]
          exact padZero_append_singleton (hexStr_length_le hw0 hdiv) _

theorem parse_hextet_hexStr {u : Nat} (h : u < 65536) : parse_hextet (hexStr u) = some u := by
  unfold parse_hextet
  rw [if_neg (by rw [hexStr_all_hex u]; simp)]
  rw [if_neg (by
    have := hexStr_length_le (by omega : (1 : Nat) ≤ 4)
      (show u < 16 ^ 4 by norm_num; omega)
    omega)]
  rw [if_neg (hexStr_ne_nil u), hexVal16_hexStr u]

/-! ## Hextet parsing lemmas -/

theorem hexVal16_eq_valNat (s : List Char) : hexVal16 s = valNat 16 (s.map hexDigVal) := by
  unfold hexVal16 valNat
  rw [List.foldl_map]

theorem parse_hextet_lt {s : List Char} {h : Nat} (hp : parse_hextet s = some h) :
    h < 65536 := by
  unfold parse_hextet at hp
  split_ifs at hp with h1 h2 h3
  rw [Option.some_inj] at hp
  have hlt : ∀ d ∈ s.map hexDigVal, d < 16 := by
    intro d hd
    rw [List.mem_map] at hd
    obtain ⟨c, hc, hdc⟩ := hd
    rw [← hdc]
    rw [List.all_eq_true] at h1
    exact hexDigVal_lt_of_isHexDig (h1 c hc)
  have hv := valNat_lt (s.map hexDigVal) hlt
  rw [List.length_map] at hv
  rw [← hexVal16_eq_valNat] at hv
  have hp4 : (16 : Nat) ^ s.length ≤ 16 ^ 4 := Nat.pow_le_pow_right (by norm_num) (by omega)
  have : (16 : Nat) ^ 4 = 65536 := by norm_num
  omega

/-- Parsing one exploded (or uppercased exploded) group: the four hex
characters of the low 16 bits of `u` decode back to `u % 65536`. -/
theorem parse_hextet_group (u : Nat) :
    parse_hextet ((digitsFix 16 4 u).map (fun d => Char.toUpper (hexDig d))) =
      some (u % 65536) := by
  have hd16 : ∀ d ∈ digitsFix 16 4 u, d < 16 := digitsFix_lt (by norm_num) 4 u
  unfold parse_hextet
  rw [if_neg (by
    rw [Bool.not_eq_true, Bool.not_eq_false, List.all_eq_true]
    intro c hc
    rw [List.mem_map] at hc
    obtain ⟨d, hd, hdc⟩ := hc
    rw [← hdc]
    exact (hexDig_facts d (hd16 d hd)).2.2.2.2.1)]
  rw [if_neg (by rw [List.length_map, digitsFix_length]; omega)]
  rw [if_neg (by
    intro hnil
    have := congrArg List.length hnil
    rw [List.length_map, digitsFix_length] at this
    exact absurd this (by norm_num))]
  rw [Option.some_inj, hexVal16_eq_valNat, List.map_map]
  have hcongr : (digitsFix 16 4 u).map (hexDigVal ∘ fun d => Char.toUpper (hexDig d)) =
      (digitsFix 16 4 u).map id := by
    apply List.map_congr_left
    intro d hd
    exact (hexDig_facts d (hd16 d hd)).2.2.2.2.2.1
  rw [hcongr, List.map_id, valNat_digitsFix]
  norm_num

/-! ## Option.mapM lemmas -/

theorem mapM_some_inv {α β : Type} {f : α → Option β} :
    ∀ {l : List α} {r : List β}, l.mapM f = some r →
      r.length = l.length ∧ ∀ y ∈ r, ∃ x ∈ l, f x = some y := by
  intro l
  induction l with
  | nil =>
    intro r h
    rw [List.mapM_nil, Option.pure_def, Option.some_inj] at h
    rw [← h]
    exact ⟨rfl, by simp⟩
  | cons x xs ih =>
    intro r h
    rw [List.mapM_cons] at h
    rcases hf : f x with _ | y <;> rw [hf] at h
    · simp at h
    · rcases hm : xs.mapM f with _ | ys <;> rw [hm] at h
      · simp at h
      · simp only [Option.pure_def, Option.bind_eq_bind, Option.some_bind,
          Option.some_inj] at h
        obtain ⟨hlen, hmem⟩ := ih hm
        rw [← h]
        refine ⟨by simp [hlen], ?_⟩
        intro z hz
        rcases List.mem_cons.mp hz with hzy | hzs
        · subst hzy
          exact ⟨x, List.mem_cons_self x xs, hf⟩
        · obtain ⟨x', hx', hfx'⟩ := hmem z hzs
          exact ⟨x', List.mem_cons_of_mem x hx', hfx'⟩

theorem mapM_of_forall_some {α β : Type} {f : α → Option β} {g : α → β} :
    ∀ l : List α, (∀ x ∈ l, f x = some (g x)) → l.mapM f = some (l.map g) := by
  intro l
  induction l with
  | nil => intro _; rfl
  | cons x xs ih =>
    intro h
    rw [List.mapM_cons, h x (List.mem_cons_self x xs),
      ih (fun y hy => h y (List.mem_cons_of_mem x hy))]
    rfl

/-! ## Shift-and-or arithmetic -/

theorem shiftLeft_or_eq {h : Nat} (hh : h < 65536) (a : Nat) :
    (a <<< 16) ||| h = a * 65536 + h := by
  have hk := Nat.mul_add_lt_is_or (hh.trans_eq (by norm_num : (65536 : Nat) = 2 ^ 16)) a
  rw [Nat.shiftLeft_eq]
  calc a * 2 ^ 16 ||| h = 2 ^ 16 * a ||| h := by rw [Nat.mul_comm]
  _ = 2 ^ 16 * a + h := hk.symm
  _ = a * 65536 + h := by rw [Nat.mul_comm]

theorem foldl_shift_or : ∀ hs : List Nat, (∀ x ∈ hs, x < 65536) → ∀ acc,
    hs.foldl (fun a x => (a <<< 16) ||| x) acc =
      hs.foldl (fun a x => a * 65536 + x) acc := by
  intro hs
  induction hs with
  | nil => intro _ acc; rfl
  | cons x xs ih =>
    intro h acc
    rw [List.foldl_cons, List.foldl_cons,
      shiftLeft_or_eq (h x (List.mem_cons_self x xs)) acc]
    exact ih (fun y hy => h y (List.mem_cons_of_mem x hy)) _

theorem foldl_shift_or_lt : ∀ hs : List Nat, (∀ x ∈ hs, x < 65536) →
    ∀ acc k, acc < 2 ^ (16 * k) →
      hs.foldl (fun a x => (a <<< 16) ||| x) acc < 2 ^ (16 * (k + hs.length)) := by
  intro hs
  induction hs with
  | nil =>
    intro _ acc k hacc
    simpa using hacc
  | cons x xs ih =>
    intro h acc k hacc
    rw [List.foldl_cons, shiftLeft_or_eq (h x (List.mem_cons_self x xs)) acc]
    have hx := h x (List.mem_cons_self x xs)
    have hstep : acc * 65536 + x < 2 ^ (16 * (k + 1)) := by
      have hpow : (2 : Nat) ^ (16 * (k + 1)) = 2 ^ (16 * k) * 65536 := by
        rw [Nat.mul_succ, pow_add]
        norm_num
      rw [hpow]
      nlinarith
    have hrec := ih (fun y hy => h y (List.mem_cons_of_mem x hy)) _ (k + 1) hstep
    rw [List.length_cons]
    rw [show 16 * (k + (xs.length + 1)) = 16 * (k + 1 + xs.length) by ring]
    exact hrec

/-! ## IPv6 structural lemmas -/

theorem getD_mem_of_lt {parts : List (List Char)} {i : Nat} (h : i < parts.length) :
    parts.getD i [] ∈ parts := by
  rw [List.getD_eq_getElem?_getD, List.getElem?_eq_getElem h, Option.getD_some]
  exact List.getElem_mem h

theorem findSkip_all_nonempty {parts : List (List Char)} (h : ∀ g ∈ parts, g ≠ []) :
    findSkip parts = some none := by
  unfold findSkip
  rw [List.filter_eq_nil_iff.mpr ?_]
  intro i hi
  rw [List.mem_range] at hi
  simp only [decide_eq_true_eq, not_and]
  intro _
  exact h _ (getD_mem_of_lt (by omega))

theorem v6Counts_sum {parts : List (List Char)} {si : Option Nat} {hi lo skipped : Nat}
    (h : v6Counts parts si = some (hi, lo, skipped)) : hi + lo + skipped = 8 := by
  rcases si with _ | skip <;>
    · simp only [v6Counts] at h
      split_ifs at h <;>
        · rw [Option.some_inj, Prod.mk.injEq, Prod.mk.injEq] at h
          omega

theorem headD_mem {gs : List (List Char)} (h : gs ≠ []) : gs.headD [] ∈ gs := by
  cases gs with
  | nil => exact absurd rfl h
  | cons g t => exact List.mem_cons_self g t

theorem getLastD_mem {gs : List (List Char)} (h : gs ≠ []) : gs.getLastD [] ∈ gs := by
  rw [List.getLastD_eq_getLast?, List.getLast?_eq_getLast gs h, Option.getD_some]
  exact List.getLast_mem h

theorem v6FromParts_lt {parts : List (List Char)} {v : Nat}
    (h : v6FromParts parts = some v) : v < 2 ^ 128 := by
  unfold v6FromParts at h
  split_ifs at h with h9
  rcases hfs : findSkip parts with _ | skipIdx <;> rw [hfs] at h
  · exact Option.noConfusion h
  dsimp only [Option.some_bind] at h
  rcases hc : v6Counts parts skipIdx with _ | ⟨hi, lo, skipped⟩ <;> rw [hc] at h
  · exact Option.noConfusion h
  dsimp only [Option.some_bind] at h
  rcases hm1 : (parts.take hi).mapM parse_hextet with _ | his <;> rw [hm1] at h
  · exact Option.noConfusion h
  dsimp only [Option.some_bind] at h
  rcases hm2 : (parts.drop (parts.length - lo)).mapM parse_hextet with _ | los <;>
    rw [hm2] at h
  · exact Option.noConfusion h
  dsimp only [Option.some_bind] at h
  replace h : los.foldl (fun a x => (a <<< 16) ||| x)
      ((his.foldl (fun a x => (a <<< 16) ||| x) 0) <<< (16 * skipped)) = v :=
    Option.some_inj.mp h
  obtain ⟨hlen1, hmem1⟩ := mapM_some_inv hm1
  obtain ⟨hlen2, hmem2⟩ := mapM_some_inv hm2
  have hb1 : ∀ x ∈ his, x < 65536 := by
    intro x hx
    obtain ⟨p, _, hp⟩ := hmem1 x hx
    exact parse_hextet_lt hp
  have hb2 : ∀ x ∈ los, x < 65536 := by
    intro x hx
    obtain ⟨p, _, hp⟩ := hmem2 x hx
    exact parse_hextet_lt hp
  have hz1 : his.foldl (fun a x => (a <<< 16) ||| x) 0 < 2 ^ (16 * his.length) := by
    have := foldl_shift_or_lt his hb1 0 0 (by norm_num)
    simpa using this
  have hz2 : (his.foldl (fun a x => (a <<< 16) ||| x) 0) <<< (16 * skipped) <
      2 ^ (16 * (his.length + skipped)) := by
    rw [Nat.shiftLeft_eq]
    calc his.foldl (fun a x => (a <<< 16) ||| x) 0 * 2 ^ (16 * skipped) <
        2 ^ (16 * his.length) * 2 ^ (16 * skipped) :=
      (Nat.mul_lt_mul_right (Nat.two_pow_pos (16 * skipped))).mpr hz1
    _ = 2 ^ (16 * (his.length + skipped)) := by
      rw [← pow_add, show 16 * his.length + 16 * skipped = 16 * (his.length + skipped)
        by ring]
  have hfin := foldl_shift_or_lt los hb2 _ (his.length + skipped) hz2
  rw [h] at hfin
  refine lt_of_lt_of_le hfin (Nat.pow_le_pow_right (by norm_num) ?_)
  have hsum := v6Counts_sum hc
  have ht : his.length ≤ hi := by
    rw [hlen1, List.length_take]
    omega
  have hl : los.length ≤ lo := by
    rw [hlen2, List.length_drop]
    omega
  omega

/-- Running the hextet fold on a full list of eight non-empty groups:
no `::`, so the value is the base-65536 recombination of the parsed
hextets. -/
theorem v6FromParts_eight {gs : List (List Char)} {hs : List Nat}
    (hlen : gs.length = 8) (hne : ∀ g ∈ gs, g ≠ [])
    (hmapM : gs.mapM parse_hextet = some hs) (hbound : ∀ x ∈ hs, x < 65536) :
    v6FromParts gs = some (valNat 65536 hs) := by
  have hgs : gs ≠ [] := by
    intro hc
    rw [hc] at hlen
    exact absurd hlen (by norm_num)
  have hcounts : v6Counts gs none = some (gs.length, 0, 0) := by
    simp only [v6Counts]
    rw [if_neg (by omega), if_neg (hne _ (headD_mem hgs)),
      if_neg (hne _ (getLastD_mem hgs))]
  unfold v6FromParts
  rw [if_neg (by omega), findSkip_all_nonempty hne]
  dsimp only [Option.some_bind]
  rw [hcounts]
  dsimp only [Option.some_bind]
  rw [List.take_length, hmapM]
  dsimp only [Option.some_bind]
  rw [Nat.sub_zero, List.drop_length]
  dsimp only [List.mapM_nil, Option.pure_def, Option.some_bind]
  rw [List.foldl_nil, Nat.mul_zero, Nat.shiftLeft_zero, Option.some_inj,
    foldl_shift_or hs hbound 0]
  rfl

theorem parse_octet_inv {p : List Char} {v : Nat} (h : parse_octet p = some v) :
    p ≠ [] ∧ p.all isDig = true ∧ decVal p = v ∧ v ≤ 255 := by
  simp only [parse_octet] at h
  split_ifs at h with h1 h2 h3 h4 h5
  · rw [Option.some_inj] at h
    refine ⟨h1, h2, h, ?_⟩
    omega

theorem pyIntDec_of_parse_octet {p : List Char} {v : Nat} (h : parse_octet p = some v) :
    pyIntDec p = some v := by
  obtain ⟨h1, h2, h3, _⟩ := parse_octet_inv h
  unfold pyIntDec
  rw [if_pos ⟨h1, h2⟩, h3]

theorem parse_ipv4_octets_inv {s : List Char} {a b c d : Nat}
    (h : parse_ipv4_octets s = some (a, b, c, d)) :
    ∃ p1 p2 p3 p4, pySplit '.' s = [p1, p2, p3, p4] ∧ parse_octet p1 = some a ∧
      parse_octet p2 = some b ∧ parse_octet p3 = some c ∧ parse_octet p4 = some d := by
  unfold parse_ipv4_octets at h
  split at h
  · next p1 p2 p3 p4 heq =>
    split at h
    · next v1 v2 v3 v4 h1 h2 h3 h4 =>
      rw [Option.some_inj, Prod.mk.injEq, Prod.mk.injEq, Prod.mk.injEq] at h
      obtain ⟨ha, hb, hc, hd⟩ := h
      rw [ha] at h1
      rw [hb] at h2
      rw [hc] at h3
      rw [hd] at h4
      exact ⟨p1, p2, p3, p4, heq, h1, h2, h3, h4⟩
    · exact Option.noConfusion h
  · exact Option.noConfusion h

/-! ## The `::ffff:` mapped form -/

theorem pySplit_prefix_mapped {rest : List Char} (h : ':' ∉ rest) :
    pySplit ':' (':' :: ':' :: 'f' :: 'f' :: 'f' :: 'f' :: ':' :: rest) =
      [[], [], ['f', 'f', 'f', 'f'], rest] := by
  have h1 : pySplit ':' rest = [rest] := pySplit_no_sep h
  simp [pySplit, h1]

theorem findSkip_mapped {A B C : List Char} (hA : A ≠ []) (hB : B ≠ []) :
    findSkip [[], [], A, B, C] = some (some 1) := by
  unfold findSkip
  rw [show ([[], [], A, B, C] : List (List Char)).length - 1 = 4 from rfl,
    show List.range 4 = [0, 1, 2, 3] from by decide]
  simp [List.filter, List.getD, hA, hB]

theorem v6FromParts_mapped {A B C : List Char} {x y z : Nat}
    (hA : A ≠ []) (hB : B ≠ []) (hC : C ≠ [])
    (ha : parse_hextet A = some x) (hb : parse_hextet B = some y)
    (hc : parse_hextet C = some z) :
    v6FromParts [[], [], A, B, C] = some ((x * 65536 + y) * 65536 + z) := by
  have hx := parse_hextet_lt ha
  have hy := parse_hextet_lt hb
  have hz := parse_hextet_lt hc
  have hcounts : v6Counts [[], [], A, B, C] (some 1) = some (0, 3, 5) := by
    simp only [v6Counts]
    simp [hC]
  unfold v6FromParts
  rw [if_neg (by norm_num)]
  rw [findSkip_mapped hA hB]
  dsimp only [Option.some_bind]
  rw [hcounts]
  dsimp only [Option.some_bind]
  rw [show List.take 0 ([[], [], A, B, C] : List (List Char)) = [] from rfl,
    show ([[], [], A, B, C] : List (List Char)).length - 3 = 2 from rfl,
    show List.drop 2 ([[], [], A, B, C] : List (List Char)) = [A, B, C] from rfl]
  dsimp only [List.mapM_nil, Option.pure_def, Option.some_bind]
  rw [List.mapM_cons, ha, List.mapM_cons, hb, List.mapM_cons, hc, List.mapM_nil]
  simp only [Option.pure_def, Option.bind_eq_bind, Option.some_bind]
  rw [List.foldl_nil, Nat.zero_shiftLeft, List.foldl_cons, List.foldl_cons,
    List.foldl_cons, List.foldl_nil, Option.some_inj]
  rw [shiftLeft_or_eq hx 0, shiftLeft_or_eq hy (0 * 65536 + x),
    shiftLeft_or_eq hz ((0 * 65536 + x) * 65536 + y)]
  ring

/-! ## Exploded-form structure and round trip -/

theorem mapM_map {α β γ : Type} (f : β → Option γ) (g : α → β) :
    ∀ l : List α, (l.map g).mapM f = l.mapM (fun x => f (g x)) := by
  intro l
  induction l with
  | nil => rfl
  | cons x xs ih => rw [List.map_cons, List.mapM_cons, List.mapM_cons, ih]

theorem digitsFix_slice {x : Nat} (hx : x < 8) (v : Nat) :
    ((digitsFix 16 32 v).drop (4 * x)).take 4 = digitsFix 16 4 (v / 16 ^ (4 * (7 - x))) := by
  rw [show (32 : Nat) = 4 * x + (32 - 4 * x) by omega, digitsFix_add]
  rw [List.drop_left' (digitsFix_length _ _ _)]
  rw [show 32 - 4 * x = 4 + (28 - 4 * x) by omega, digitsFix_add]
  rw [List.take_left' (digitsFix_length _ _ _)]
  rw [show 28 - 4 * x = 4 * (7 - x) by omega]

theorem explode6_upper {v : Nat} (hv : v < 2 ^ 128) :
    (explode6 v).map Char.toUpper =
      pyJoin ':' ((List.range 8).map
        (fun x => (digitsFix 16 4 (v / 16 ^ (4 * (7 - x)))).map
          (fun d => Char.toUpper (hexDig d)))) := by
  unfold explode6
  rw [map_pyJoin (by decide : Char.toUpper ':' = ':')]
  rw [List.map_map]
  congr 1
  apply List.map_congr_left
  intro x hx
  rw [List.mem_range] at hx
  show (((padZero 32 (hexStr v)).drop (4 * x)).take 4).map Char.toUpper = _
  rw [padZero_hexStr 32 (by omega) v (by norm_num; omega)]
  rw [← List.map_drop, ← List.map_take, digitsFix_slice hx v, List.map_map]
  rfl

theorem ipv6_int_of_exploded {v : Nat} (hv : v < 2 ^ 128) :
    ipv6_int_from_string ((explode6 v).map Char.toUpper) = some v := by
  rw [explode6_upper hv]
  have hd16 : ∀ u : Nat, ∀ d ∈ digitsFix 16 4 u, d < 16 :=
    fun u => digitsFix_lt (by norm_num) 4 u
  set gs := (List.range 8).map
    (fun x => (digitsFix 16 4 (v / 16 ^ (4 * (7 - x)))).map
      (fun d => Char.toUpper (hexDig d))) with hgsdef
  have hgmem : ∀ g ∈ gs, g ≠ [] ∧ ':' ∉ g ∧ '.' ∉ g := by
    intro g hg
    rw [hgsdef, List.mem_map] at hg
    obtain ⟨x, _, hgx⟩ := hg
    refine ⟨?_, ?_, ?_⟩
    · intro hnil
      rw [← hgx] at hnil
      have := congrArg List.length hnil
      rw [List.length_map, digitsFix_length] at this
      exact absurd this (by norm_num)
    · intro hmem
      rw [← hgx, List.mem_map] at hmem
      obtain ⟨d, hd, hdc⟩ := hmem
      exact absurd hdc (hexDig_facts d (hd16 _ d hd)).2.2.2.2.2.2.1
    · intro hmem
      rw [← hgx, List.mem_map] at hmem
      obtain ⟨d, hd, hdc⟩ := hmem
      exact absurd hdc (hexDig_facts d (hd16 _ d hd)).2.2.2.2.2.2.2.1
  have hglen : gs.length = 8 := by
    rw [hgsdef, List.length_map, List.length_range]
  have hgs_ne : gs ≠ [] := by
    intro hc
    rw [hc] at hglen
    exact absurd hglen (by norm_num)
  simp only [ipv6_int_from_string]
  rw [pySplit_pyJoin ':' gs hgs_ne (fun g hg => (hgmem g hg).2.1)]
  rw [if_neg (by rw [hglen]; norm_num)]
  rw [if_neg (fun hdot => (hgmem _ (getLastD_mem hgs_ne)).2.2 hdot)]
  have hmapM : gs.mapM parse_hextet = some ((List.range 8).map
      (fun x => v / 16 ^ (4 * (7 - x)) % 65536)) := by
    rw [hgsdef, mapM_map]
    exact mapM_of_forall_some _ (fun x _ => parse_hextet_group _)
  have hbound : ∀ y ∈ (List.range 8).map (fun x => v / 16 ^ (4 * (7 - x)) % 65536),
      y < 65536 := by
    intro y hy
    rw [List.mem_map] at hy
    obtain ⟨x, _, hxy⟩ := hy
    rw [← hxy]
    exact Nat.mod_lt _ (by norm_num)
  rw [v6FromParts_eight hglen (fun g hg => (hgmem g hg).1) hmapM hbound]
  have hdig : digitsFix 65536 8 v = (List.range 8).map
      (fun x => v / 16 ^ (4 * (7 - x)) % 65536) := by
    rw [digitsFix_range]
    apply List.map_congr_left
    intro i hi
    rw [List.mem_range] at hi
    rw [show (16 : Nat) ^ (4 * (7 - i)) = 65536 ^ (8 - 1 - i) by
      rw [pow_mul, show (16 : Nat) ^ 4 = 65536 by norm_num,
        show 8 - 1 - i = 7 - i by omega]]
  rw [← hdig, valNat_digitsFix]
  rw [Nat.mod_eq_of_lt (hv.trans_eq (by norm_num : (2 : Nat) ^ 128 = 65536 ^ 8))]

/-! ## `ip_address` inversion lemmas -/

theorem ipv4_none_of_no_dot {l : List Char} (h : '.' ∉ l) :
    ipv4_int_from_string l = none := by
  unfold ipv4_int_from_string parse_ipv4_octets
  rw [pySplit_no_sep h]
  rfl

theorem isDig_ne_colon {ch : Char} (h : isDig ch = true) : ch ≠ ':' := by
  intro he
  rw [he] at h
  exact absurd h (by decide)

theorem ipv4_chars {l : List Char} {q : Nat × Nat × Nat × Nat}
    (h : parse_ipv4_octets l = some q) : ∀ ch ∈ l, isDig ch = true ∨ ch = '.' := by
  obtain ⟨a, b, c, d⟩ := q
  obtain ⟨p1, p2, p3, p4, hs, h1, h2, h3, h4⟩ := parse_ipv4_octets_inv h
  intro ch hch
  rw [← pyJoin_pySplit '.' l, hs] at hch
  rcases mem_pyJoin hch with he | ⟨g, hg, hcg⟩
  · exact Or.inr he
  · left
    have hall : g.all isDig = true := by
      simp only [List.mem_cons, List.not_mem_nil, or_false] at hg
      rcases hg with rfl | rfl | rfl | rfl
      · exact (parse_octet_inv h1).2.1
      · exact (parse_octet_inv h2).2.1
      · exact (parse_octet_inv h3).2.1
      · exact (parse_octet_inv h4).2.1
    rw [List.all_eq_true] at hall
    exact hall ch hcg

theorem ipv6_int_from_string_lt {s : List Char} {v : Nat}
    (h : ipv6_int_from_string s = some v) : v < 2 ^ 128 := by
  simp only [ipv6_int_from_string] at h
  split_ifs at h with h1 h2
  · rcases hq : ipv4_int_from_string ((pySplit ':' s).getLastD []) with _ | q <;>
      rw [hq] at h
    · exact Option.noConfusion h
    · rw [Option.some_bind] at h
      exact v6FromParts_lt h
  · exact v6FromParts_lt h

theorem ip_address_v6_inv {s : String} {v : Nat} (h : ip_address s = some ⟨6, v⟩) :
    ipv4_int_from_string s.data = none ∧ ipv6_int_from_string s.data = some v := by
  unfold ip_address at h
  rcases h4 : ipv4_int_from_string s.data with _ | q <;> rw [h4] at h
  · rcases h6 : ipv6_int_from_string s.data with _ | w <;> rw [h6] at h
    · exact Option.noConfusion h
    · refine ⟨rfl, ?_⟩
      rw [Option.some_inj] at h
      rw [(PyIPAddress.mk.injEq .. ).mp h |>.2]
  · exfalso
    rw [Option.some_inj] at h
    exact absurd ((PyIPAddress.mk.injEq .. ).mp h).1 (by norm_num)

/-! ## Claims -/

/-- C1, as stated, is false: the purge-expired (and clear-all) steps are
inside the `len(ips_formatted) > 0` guard, so with an empty normalized
list and `remove_expired`/`clear_db` requested (not a dry run), the store
is left untouched — the expired deny row survives, no purge event occurs,
although the purge would have deleted it. -/
theorem C1_counterexample :
    (store_phase ⟨true, true, false⟩ [] 100 [⟨"1.2.3.4", "std", 50, true, 1, 0, none⟩]).1 =
      [⟨"1.2.3.4", "std", 50, true, 1, 0, none⟩] ∧
    Event.purgeExpired ∉ (store_phase ⟨true, true, false⟩ [] 100
      [⟨"1.2.3.4", "std", 50, true, 1, 0, none⟩]).2 ∧
    purgeExpiredRows 100 [⟨"1.2.3.4", "std", 50, true, 1, 0, none⟩] = [] := by
  refine ⟨rfl, ?_, rfl⟩
  simp [store_phase]

/-- C1 (amended): if the normalized-entry list is empty the Store
Reconciler skips the whole store block — the purge-expired and clear-all
steps included, whatever the flags — leaves the store untouched and only
reports that no entries were found. -/
theorem C1_empty_list_skips_store_block (args : Args) (now : Int) (store : List Row) :
    store_phase args [] now store = (store, [Event.noIPFound]) := by
  simp [store_phase]

/-- C2, as stated, is false on the "skipped silently from persistence"
part: a token whose parse reports version 5 is processed with an empty
canonical form, and the resulting entry IS written to the deny-list store
(the `REPLACE` runs for every processed entry) — here the store ends up
holding a row keyed by `"x"` with an empty `IPStd`. -/
theorem C2_counterexample :
    process_ip_with testParse5 ["x"] 7 = ([⟨"x", "", 7⟩], []) ∧
    (store_phase ⟨false, false, false⟩ (process_ip_with testParse5 ["x"] 7).1 50 []).1 =
      [⟨"x", "", 7, true, 50, 0, none⟩] := by
  constructor <;> rfl

/-- C2 (amended): a token that parses as an IP address of a version other
than 4 and 6 is given an empty canonical form and counted as processed,
and the entry IS persisted: when not a dry run the upsert writes a
deny-list row for it whose `IPStd` column is empty. -/
theorem C2_other_version_is_written (g : String → Option PyIPAddress) (i : String)
    (e : Int) (a : PyIPAddress) (now : Int) (hg : g i = some a) (h4 : a.version ≠ 4)
    (h6 : a.version ≠ 6) :
    process_ip_with g [i] e = ([⟨i, "", e⟩], []) ∧
    (store_phase ⟨false, false, false⟩ (process_ip_with g [i] e).1 now []).1 =
      [⟨i, "", e, true, now, 0, none⟩] := by
  have h : tryProcessOne g i e = some ⟨i, "", e⟩ := by
    unfold tryProcessOne
    rw [hg]
    simp [h4, h6]
  have h1 : process_ip_with g [i] e = ([⟨i, "", e⟩], []) := by
    simp [process_ip_with, h]
  refine ⟨h1, ?_⟩
  rw [h1]
  simp [store_phase, executemanyReplace, replaceRow]

theorem C2_other_version_is_written_witness :
    process_ip_with testParse5 ["x"] 7 = ([⟨"x", "", 7⟩], []) ∧
    (store_phase ⟨false, false, false⟩ (process_ip_with testParse5 ["x"] 7).1 50 []).1 =
      [⟨"x", "", 7, true, 50, 0, none⟩] :=
  C2_other_version_is_written testParse5 "x" 7 ⟨5, 0⟩ 50 (by rfl) (by decide) (by decide)

theorem ipv4_to_ipstd_spec {s : String} {a b c d : Nat}
    (h : parse_ipv4_octets s.data = some (a, b, c, d)) :
    ipv4_to_ipstd s = some (specCanonIPv4 a b c d) := by
  obtain ⟨p1, p2, p3, p4, hs, h1, h2, h3, h4⟩ := parse_ipv4_octets_inv h
  have ha := (parse_octet_inv h1).2.2.2
  have hb := (parse_octet_inv h2).2.2.2
  have hc := (parse_octet_inv h3).2.2.2
  have hd := (parse_octet_inv h4).2.2.2
  unfold ipv4_to_ipstd
  rw [hs, List.mapM_cons, List.mapM_cons, List.mapM_cons, List.mapM_cons, List.mapM_nil,
    pyIntDec_of_parse_octet h1, pyIntDec_of_parse_octet h2, pyIntDec_of_parse_octet h3,
    pyIntDec_of_parse_octet h4]
  simp only [Option.pure_def, Option.bind_eq_bind, Option.some_bind]
  rw [Option.some_inj]
  unfold specCanonIPv4
  congr 1
  rw [hex2_eq (by omega : a < 256), hex2_eq (by omega : b < 256),
    hex2_eq (by omega : c < 256), hex2_eq (by omega : d < 256)]
  have htempl : "0000:0000:0000:0000:0000:ffff:".data.map Char.toUpper =
      "0000:0000:0000:0000:0000:FFFF:".data := by decide
  have hcolon : Char.toUpper ':' = ':' := by decide
  simp only [List.map_append, List.map_cons, List.map_nil, htempl, hcolon,
    toUpper_hexDig (a / 16) (by omega), toUpper_hexDig (a % 16) (by omega),
    toUpper_hexDig (b / 16) (by omega), toUpper_hexDig (b % 16) (by omega),
    toUpper_hexDig (c / 16) (by omega), toUpper_hexDig (c % 16) (by omega),
    toUpper_hexDig (d / 16) (by omega), toUpper_hexDig (d % 16) (by omega)]
  simp

/-- C3: for every dotted-quad string the IPv4 parser accepts, with octet
values `a`, `b`, `c`, `d` (each at most 255), the script's
canonicalization yields exactly the spec's
`0000:0000:0000:0000:0000:FFFF:HHHH:HHHH` form — 8 groups, uppercase, the
last two hextets being the hexadecimal encodings of the octet pairs. -/
theorem C3_ipv4_canonical (s : String) (a b c d : Nat)
    (h : parse_ipv4_octets s.data = some (a, b, c, d)) :
    ipv4_to_ipstd s = some (specCanonIPv4 a b c d) :=
  ipv4_to_ipstd_spec h

theorem C3_ipv4_canonical_witness :
    ipv4_to_ipstd "1.2.3.4" = some "0000:0000:0000:0000:0000:FFFF:0102:0304" :=
  (C3_ipv4_canonical "1.2.3.4" 1 2 3 4 (by decide)).trans (by decide)

/-- C4: for every string the pipeline parses as an IPv6 address, the
canonicalization yields the fully-exploded form — eight groups of four
uppercase hexadecimal characters joined by `:`, hence no `::`
compression — and re-canonicalizing that output returns it unchanged
(idempotence). -/
theorem C4_ipv6_exploded_idempotent (s : String) (v : Nat)
    (h : ip_address s = some ⟨6, v⟩) :
    ∃ t : String, ipv6_to_ipstd s = some t ∧
      (∃ gs : List (List Char), t.data = pyJoin ':' gs ∧ gs.length = 8 ∧
        ∀ g ∈ gs, g.length = 4 ∧ ∀ ch ∈ g, isUpHex ch = true) ∧
      ipv6_to_ipstd t = some t := by
  obtain ⟨h4, h6⟩ := ip_address_v6_inv h
  have hv : v < 2 ^ 128 := ipv6_int_from_string_lt h6
  have hexp : exploded ⟨6, v⟩ = explode6 v := by
    unfold exploded
    norm_num
  refine ⟨⟨(explode6 v).map Char.toUpper⟩, ?_, ?_, ?_⟩
  · unfold ipv6_to_ipstd
    rw [h, Option.map_some', hexp]
  · refine ⟨(List.range 8).map (fun x => (digitsFix 16 4 (v / 16 ^ (4 * (7 - x)))).map
      (fun d => Char.toUpper (hexDig d))), ?_, ?_, ?_⟩
    · exact explode6_upper hv
    · rw [List.length_map, List.length_range]
    · intro g hg
      rw [List.mem_map] at hg
      obtain ⟨x, _, hgx⟩ := hg
      constructor
      · rw [← hgx, List.length_map, digitsFix_length]
      · intro ch hch
        rw [← hgx, List.mem_map] at hch
        obtain ⟨d, hd, hdc⟩ := hch
        rw [← hdc]
        exact (hexDig_facts d (digitsFix_lt (by norm_num) 4 _ d hd)).2.2.2.2.2.2.2.2
  · have hchars : '.' ∉ (explode6 v).map Char.toUpper := by
      rw [explode6_upper hv]
      intro hmem
      rcases mem_pyJoin hmem with he | ⟨g, hg, hcg⟩
      · exact absurd he (by decide)
      · rw [List.mem_map] at hg
        obtain ⟨x, _, hgx⟩ := hg
        rw [← hgx, List.mem_map] at hcg
        obtain ⟨d, hd, hdc⟩ := hcg
        exact absurd hdc
          (hexDig_facts d (digitsFix_lt (by norm_num) 4 _ d hd)).2.2.2.2.2.2.2.1
    unfold ipv6_to_ipstd
    have hip : ip_address ⟨(explode6 v).map Char.toUpper⟩ = some ⟨6, v⟩ := by
      unfold ip_address
      rw [show (String.mk ((explode6 v).map Char.toUpper)).data =
        (explode6 v).map Char.toUpper from rfl]
      rw [ipv4_none_of_no_dot hchars, ipv6_int_of_exploded hv]
    rw [hip, Option.map_some', hexp]

theorem C4_ipv6_exploded_idempotent_witness :
    ipv6_to_ipstd "::1" = some "0000:0000:0000:0000:0000:0000:0000:0001" ∧
    ipv6_to_ipstd "0000:0000:0000:0000:0000:0000:0000:0001" =
      some "0000:0000:0000:0000:0000:0000:0000:0001" := by
  obtain ⟨t, h1, _, h3⟩ := C4_ipv6_exploded_idempotent "::1" 1 (by decide)
  have he : ipv6_to_ipstd "::1" = some "0000:0000:0000:0000:0000:0000:0000:0001" := by
    decide
  rw [he] at h1
  rw [Option.some_inj] at h1
  refine ⟨he, ?_⟩
  rw [h1]
  exact h3

/-- C5: `process_ip` partitions its input stably: the empty token appears
in neither output; a non-empty token failing both parses lands in the
invalid list; every processed entry's address parsed successfully (so no
failed token is ever in the normalized list, and `""` is in neither); and
both outputs preserve the input's relative order (they are sublists of the
input). -/
theorem C5_stable_partition (l : List String) (e : Int) :
    (∀ x ∈ (process_ip l e).1, x.address ≠ "" ∧ ip_address x.address ≠ none) ∧
    "" ∉ (process_ip l e).2 ∧
    (∀ i ∈ l, i ≠ "" → ip_address i = none → i ∈ (process_ip l e).2) ∧
    ((process_ip l e).1.map NormalizedEntry.address).Sublist l ∧
    (process_ip l e).2.Sublist l := by
  unfold process_ip
  rw [process_ip_with_processed, process_ip_with_invalid]
  refine ⟨?_, ?_, ?_, ?_, ?_⟩
  · intro x hx
    rw [List.mem_filterMap] at hx
    obtain ⟨i, _, hi⟩ := hx
    obtain ⟨a, ha⟩ := (tryProcessOne_inv hi).2.2
    rw [tryProcessOne_address hi, ha]
    refine ⟨?_, by simp⟩
    intro hemp
    rw [hemp] at ha
    have hn : ip_address "" = none := by decide
    rw [hn] at ha
    exact Option.noConfusion ha
  · intro hmem
    rw [List.mem_filter] at hmem
    simp at hmem
  · intro i hi hne hnone
    rw [List.mem_filter]
    refine ⟨hi, ?_⟩
    have : tryProcessOne ip_address i e = none := by
      unfold tryProcessOne
      rw [hnone]
      rfl
    simp [this, hne]
  · exact filterMap_map_sublist (fun i x h => tryProcessOne_address h) l
  · exact List.filter_sublist l

theorem C5_stable_partition_witness :
    "bogus" ∈ (process_ip ["1.2.3.4", "", "bogus"] 0).2 :=
  (C5_stable_partition ["1.2.3.4", "", "bogus"] 0).2.2.1 "bogus" (by decide) (by decide)
    (by decide)

/-- C6: the expiration value is one absolute epoch-second integer shared by
every entry of a run: `0` when `expire-in-days` is `0`, `runStart +
days * 86400` when positive, and every processed entry of the run carries
exactly this value. -/
theorem C6_expire_uniform (d T : Int) (l : List String) :
    (d = 0 → compute_expire d T = 0) ∧
    (0 < d → compute_expire d T = T + d * 86400) ∧
    ∀ x ∈ (process_ip l (compute_expire d T)).1, x.expire = compute_expire d T := by
  refine ⟨?_, ?_, ?_⟩
  · intro h
    simp [compute_expire, h]
  · intro h
    simp only [compute_expire, if_pos h]
    norm_num
  · intro x hx
    unfold process_ip at hx
    rw [process_ip_with_processed, List.mem_filterMap] at hx
    obtain ⟨i, _, hi⟩ := hx
    exact (tryProcessOne_inv hi).2.1

theorem C6_expire_uniform_witness :
    compute_expire 0 1000 = 0 ∧ compute_expire 2 1000 = 1000 + 2 * 86400 ∧
    ∀ x ∈ (process_ip ["1.2.3.4"] (compute_expire 2 1000)).1,
      x.expire = compute_expire 2 1000 :=
  ⟨(C6_expire_uniform 0 1000 []).1 rfl, (C6_expire_uniform 2 1000 []).2.1 (by decide),
    (C6_expire_uniform 2 1000 ["1.2.3.4"]).2.2⟩

/-- C7, as stated, is false on the "counting still runs" part: in dry-run
mode with an empty normalized list, the store block is skipped entirely,
so no count is executed or reported — the run only reports that no
entries were found. -/
theorem C7_counterexample :
    store_phase ⟨false, false, true⟩ [] 0 [] = ([], [Event.noIPFound]) := by
  rfl

/-- C7 (amended): in dry-run mode no row of the store is ever mutated —
for every flag combination and entry list the store is returned unchanged,
so the before count equals the after count — and whenever the normalized
list is non-empty the read-only counting runs and reports that unchanged
count before and after. -/
theorem C7_dry_run_no_mutation (args : Args) (l : List NormalizedEntry) (now : Int)
    (store : List Row) (hd : args.dry_run = true) :
    (store_phase args l now store).1 = store ∧
    (l ≠ [] → (store_phase args l now store).2 =
      [Event.countBefore (countDeny store), Event.dryRunNothing,
        Event.countAfter (countDeny store)]) := by
  cases l with
  | nil => simp [store_phase]
  | cons x xs =>
    constructor
    · simp [store_phase, hd]
    · intro _
      simp [store_phase, hd]

theorem C7_dry_run_no_mutation_witness :
    (store_phase ⟨true, true, true⟩ [⟨"a", "b", 0⟩] 100
      [⟨"1.2.3.4", "std", 50, true, 1, 0, none⟩]).1 =
      [⟨"1.2.3.4", "std", 50, true, 1, 0, none⟩] ∧
    (store_phase ⟨true, true, true⟩ [⟨"a", "b", 0⟩] 100
      [⟨"1.2.3.4", "std", 50, true, 1, 0, none⟩]).2 =
      [Event.countBefore 1, Event.dryRunNothing, Event.countAfter 1] :=
  ⟨(C7_dry_run_no_mutation ⟨true, true, true⟩ [⟨"a", "b", 0⟩] 100
      [⟨"1.2.3.4", "std", 50, true, 1, 0, none⟩] rfl).1,
    (C7_dry_run_no_mutation ⟨true, true, true⟩ [⟨"a", "b", 0⟩] 100
      [⟨"1.2.3.4", "std", 50, true, 1, 0, none⟩] rfl).2 (by decide)⟩

/-- C8: the Tokenizer produces one flat ordered token sequence — every
local source's lines first, in argument order, then every remote source's
lines, in argument order, each source split on newline with line order
kept. -/
theorem C8_tokenizer_order (locs exts : List String) (h : locs ++ exts ≠ []) :
    get_ip_list locs exts = some
      ((locs.map (fun f => pySplitStr '\n' (get_ip_local f))).flatten ++
        (exts.map (fun s => pySplitStr '\n' (get_ip_remote s))).flatten) := by
  unfold get_ip_list
  rcases hd : locs.map (fun f => pySplitStr '\n' (get_ip_local f)) ++
      exts.map (fun s => pySplitStr '\n' (get_ip_remote s)) with _ | ⟨x, xs⟩
  · exfalso
    rcases locs with _ | ⟨a, as⟩
    · rcases exts with _ | ⟨b, bs⟩
      · exact h rfl
      · simp at hd
    · simp at hd
  · simp only [hd, foldl_append_eq_flatten]
    rw [← List.flatten_cons, ← hd]
    simp

theorem C8_tokenizer_order_witness :
    get_ip_list ["1.2.3.4\r\n::1"] ["bogus\n"] =
      some ["1.2.3.4", "::1", "bogus", ""] :=
  (C8_tokenizer_order ["1.2.3.4\r\n::1"] ["bogus\n"] (by decide)).trans (by rfl)

/-- C9: requesting clear-all without a backup destination is rejected by
argument validation with a configuration error before the run touches the
store, and supplying zero sources is rejected at the same stage (the
source check fires first). -/
theorem C9_config_errors (a : ArgsT) (db_e db_r : Bool) (st now : Int) (store : List Row) :
    (a.in_file = [] → a.in_url = [] →
      parse_args_validate a =
        Except.error "At least one source list is mandatory (file or url)" ∧
      main_model a db_e db_r st now store =
        MainResult.configError "At least one source list is mandatory (file or url)") ∧
    (a.clear_db = true → a.backup_to = none → a.in_file ++ a.in_url ≠ [] →
      parse_args_validate a = Except.error "backup folder should be set for clear db" ∧
      main_model a db_e db_r st now store =
        MainResult.configError "backup folder should be set for clear db") := by
  constructor
  · intro h1 h2
    have hv : parse_args_validate a =
        Except.error "At least one source list is mandatory (file or url)" := by
      simp [parse_args_validate, h1, h2]
    exact ⟨hv, by simp [main_model, hv]⟩
  · intro h1 h2 h3
    have hne : ¬ (a.in_file.length = 0 ∧ a.in_url.length = 0) := by
      intro hz
      rw [List.length_eq_zero] at hz
      rw [List.length_eq_zero] at hz
      rw [hz.1, hz.2] at h3
      exact h3 rfl
    have hv : parse_args_validate a =
        Except.error "backup folder should be set for clear db" := by
      simp only [parse_args_validate, if_neg hne, h1, h2]
      simp
    exact ⟨hv, by simp [main_model, hv]⟩

theorem C9_config_errors_witness :
    main_model ⟨[], [], 0, false, none, false, false, false⟩ true true 0 0 [] =
      MainResult.configError "At least one source list is mandatory (file or url)" ∧
    main_model ⟨["1.2.3.4"], [], 0, false, none, true, false, false⟩ true true 0 0 [] =
      MainResult.configError "backup folder should be set for clear db" :=
  ⟨((C9_config_errors ⟨[], [], 0, false, none, false, false, false⟩ true true 0 0 []).1
      rfl rfl).2,
    ((C9_config_errors ⟨["1.2.3.4"], [], 0, false, none, true, false, false⟩ true true
      0 0 []).2 rfl rfl (by decide)).2⟩

theorem digitsFix_four (u : Nat) :
    digitsFix 16 4 u = [u / 4096 % 16, u / 256 % 16, u / 16 % 16, u % 16] := by
  simp [digitsFix, Nat.div_div_eq_div_mul]

/-- C10: the two canonicalization paths agree — for every dotted-quad
string the IPv4 parser accepts, the script's IPv4 formatter and the
generic `exploded`-based IPv6 formatter applied to the IPv4-mapped
`::ffff:` form produce the same canonical string. -/
theorem C10_mapped_consistency (s : String) (a b c d : Nat)
    (h : parse_ipv4_octets s.data = some (a, b, c, d)) :
    ipv6_to_ipstd ("::ffff:" ++ s) = ipv4_to_ipstd s := by
  obtain ⟨p1, p2, p3, p4, hs, h1, h2, h3, h4⟩ := parse_ipv4_octets_inv h
  have ha := (parse_octet_inv h1).2.2.2
  have hb := (parse_octet_inv h2).2.2.2
  have hc := (parse_octet_inv h3).2.2.2
  have hd := (parse_octet_inv h4).2.2.2
  have hq4 : ipv4_int_from_string s.data =
      some (((a * 256 + b) * 256 + c) * 256 + d) := by
    unfold ipv4_int_from_string
    rw [h]
    rfl
  set q := ((a * 256 + b) * 256 + c) * 256 + d with hqdef
  have hqlt : q < 4294967296 := by omega
  have hchars := ipv4_chars h
  have hcolon : ':' ∉ s.data := by
    intro hm
    rcases hchars ':' hm with hdig | hdot
    · exact absurd hdig (by decide)
    · exact absurd hdot (by decide)
  have hdata : ("::ffff:" ++ s).data =
      ':' :: ':' :: 'f' :: 'f' :: 'f' :: 'f' :: ':' :: s.data := by
    rw [String.data_append]
    rfl
  have hsplit : pySplit ':' (("::ffff:" ++ s).data) =
      [[], [], ['f', 'f', 'f', 'f'], s.data] := by
    rw [hdata]
    exact pySplit_prefix_mapped hcolon
  have hdot : '.' ∈ s.data := by
    rw [← pyJoin_pySplit '.' s.data, hs, pyJoin_pair]
    exact List.mem_append_right _ (List.mem_cons_self _ _)
  have hv4c : ipv4_int_from_string (("::ffff:" ++ s).data) = none := by
    rcases hq : parse_ipv4_octets (("::ffff:" ++ s).data) with _ | q'
    · unfold ipv4_int_from_string
      rw [hq]
      rfl
    · exfalso
      rcases ipv4_chars hq ':' (by rw [hdata]; exact List.mem_cons_self _ _) with
        hdig | hdot'
      · exact absurd hdig (by decide)
      · exact absurd hdot' (by decide)
  have hhi : (q >>> 16) &&& 65535 = q / 65536 := by
    rw [Nat.shiftRight_eq_div_pow, show (65535 : Nat) = 2 ^ 16 - 1 by norm_num,
      Nat.and_pow_two_sub_one_eq_mod, show (2 : Nat) ^ 16 = 65536 by norm_num]
    exact Nat.mod_eq_of_lt (by omega)
  have hlo : q &&& 65535 = q % 65536 := by
    rw [show (65535 : Nat) = 2 ^ 16 - 1 by norm_num, Nat.and_pow_two_sub_one_eq_mod,
      show (2 : Nat) ^ 16 = 65536 by norm_num]
  have hmain : ipv6_int_from_string (("::ffff:" ++ s).data) =
      some ((65535 * 65536 + q / 65536) * 65536 + q % 65536) := by
    simp only [ipv6_int_from_string]
    rw [hsplit]
    rw [if_neg (by norm_num)]
    rw [if_pos (show ('.' : Char) ∈ ([[], [], ['f', 'f', 'f', 'f'], s.data] :
      List (List Char)).getLastD [] from hdot)]
    rw [show ([[], [], ['f', 'f', 'f', 'f'], s.data] : List (List Char)).getLastD [] =
      s.data from rfl]
    rw [hq4, Option.some_bind]
    rw [show ([[], [], ['f', 'f', 'f', 'f'], s.data] : List (List Char)).dropLast =
      [[], [], ['f', 'f', 'f', 'f']] from rfl]
    simp only [List.cons_append, List.nil_append]
    rw [hhi, hlo]
    exact v6FromParts_mapped (by decide) (hexStr_ne_nil _) (hexStr_ne_nil _)
      (by decide) (parse_hextet_hexStr (by omega)) (parse_hextet_hexStr (by omega))
  set V := (65535 * 65536 + q / 65536) * 65536 + q % 65536 with hVdef
  have hVq : V = 65535 * 4294967296 + q := by omega
  have hV48 : V < 281474976710656 := by omega
  have hVlt : V < 2 ^ 128 :=
    lt_of_lt_of_le hV48 (by norm_num : (281474976710656 : Nat) ≤ 2 ^ 128)
  unfold ipv6_to_ipstd
  rw [show ip_address ("::ffff:" ++ s) = some ⟨6, V⟩ from by
    unfold ip_address
    rw [hv4c, hmain]]
  rw [Option.map_some']
  rw [show exploded ⟨6, V⟩ = explode6 V from by unfold exploded; norm_num]
  rw [ipv4_to_ipstd_spec h, Option.some_inj]
  unfold specCanonIPv4
  congr 1
  rw [explode6_upper hVlt]
  rw [show List.range 8 = [0, 1, 2, 3, 4, 5, 6, 7] from by decide]
  simp only [List.map_cons, List.map_nil]
  have hVsmall : ∀ e : Nat, 281474976710656 ≤ 16 ^ e → V / 16 ^ e = 0 :=
    fun e he => Nat.div_eq_of_lt (lt_of_lt_of_le hV48 he)
  rw [hVsmall (4 * (7 - 0)) (by norm_num), hVsmall (4 * (7 - 1)) (by norm_num),
    hVsmall (4 * (7 - 2)) (by norm_num), hVsmall (4 * (7 - 3)) (by norm_num),
    hVsmall (4 * (7 - 4)) (by norm_num)]
  have e5 : V / 16 ^ (4 * (7 - 5)) = 65535 := by
    rw [show (16 : Nat) ^ (4 * (7 - 5)) = 4294967296 by norm_num, hVq]
    omega
  have e6 : V / 16 ^ (4 * (7 - 6)) = 65535 * 65536 + q / 65536 := by
    rw [show (16 : Nat) ^ (4 * (7 - 6)) = 65536 by norm_num]
    omega
  have e7 : V / 16 ^ (4 * (7 - 7)) = V := by norm_num
  rw [e5, e6, e7]
  rw [digitsFix_four (65535 * 65536 + q / 65536), digitsFix_four V]
  have g61 : (65535 * 65536 + q / 65536) / 4096 % 16 = a / 16 := by omega
  have g62 : (65535 * 65536 + q / 65536) / 256 % 16 = a % 16 := by omega
  have g63 : (65535 * 65536 + q / 65536) / 16 % 16 = b / 16 := by omega
  have g64 : (65535 * 65536 + q / 65536) % 16 = b % 16 := by omega
  have g71 : V / 4096 % 16 = c / 16 := by omega
  have g72 : V / 256 % 16 = c % 16 := by omega
  have g73 : V / 16 % 16 = d / 16 := by omega
  have g74 : V % 16 = d % 16 := by omega
  rw [g61, g62, g63, g64, g71, g72, g73, g74]
  simp only [List.map_cons, List.map_nil]
  rw [toUpper_hexDig (a / 16) (by omega), toUpper_hexDig (a % 16) (by omega),
    toUpper_hexDig (b / 16) (by omega), toUpper_hexDig (b % 16) (by omega),
    toUpper_hexDig (c / 16) (by omega), toUpper_hexDig (c % 16) (by omega),
    toUpper_hexDig (d / 16) (by omega), toUpper_hexDig (d % 16) (by omega)]
  rw [show ((digitsFix 16 4 0).map (fun d => Char.toUpper (hexDig d)) : List Char) =
    ['0', '0', '0', '0'] from by decide]
  rw [show ((digitsFix 16 4 65535).map (fun d => Char.toUpper (hexDig d)) : List Char) =
    ['F', 'F', 'F', 'F'] from by decide]
  simp [pyJoin]

theorem C10_mapped_consistency_witness :
    ipv6_to_ipstd ("::ffff:" ++ "1.2.3.4") = ipv4_to_ipstd "1.2.3.4" ∧
    ipv4_to_ipstd "1.2.3.4" = some "0000:0000:0000:0000:0000:FFFF:0102:0304" :=
  ⟨C10_mapped_consistency "1.2.3.4" 1 2 3 4 (by decide), by decide⟩

end ABIP
